import Mathlib

/-!
Verification of `src/jaxlib/cuda_linalg.py` (ryansoq/jax).

The Python file is a glue layer: it computes tensor shapes, strides and an
opaque descriptor, then emits a custom call to the native kernel
`cuda_lu_pivots_to_permutation`.  The kernel itself (the pivot-to-permutation
expansion, called `expand` in the specification) is not part of the source
tree, so it is modelled here from the specification's algorithm (§4.1).
The two glue functions `lu_pivots_to_permutation` (XLA builder API) and
`lu_pivots_to_permutation_mhlo` (MHLO builder API) are embedded directly
from the Python source.
-/

/-- Error taxonomy of the specification (§7): `InvalidShape` for dtype or
rank mismatch, `InvalidPivot` for a pivot value outside the valid range for
its step. -/
inductive ExpandError where
  | invalidShape : ExpandError
  | invalidPivot : ExpandError
deriving DecidableEq, Repr

/-- Modelled from the spec: the swap `perm[i] <-> perm[j]` of step 2 of the
§4.1 algorithm, on a list viewed as a zero-indexed buffer. -/
def swapList (l : List Int) (i j : Nat) : List Int :=
  (l.set i (l.getD j 0)).set j (l.getD i 0)

/-- Modelled from the spec: step 1 of §4.1, `perm[i] = i` for
`i` in `[0, permutation_size)` (the identity permutation, as int32 values). -/
def idPerm (n : Nat) : List Int :=
  (List.range n).map Int.ofNat

/-- Modelled from the spec: step 2 of §4.1, the sequential swap loop.
`applyPivots perm pivots k` runs the remaining pivots starting at loop
index `k`: for each pivot `p` in order it swaps `perm[k]` and `perm[p]`
and continues with `k+1`. -/
def applyPivots (perm : List Int) (pivots : List Int) (k : Nat) : List Int :=
  match pivots with
  | [] => perm
  | p :: rest => applyPivots (swapList perm k p.toNat) rest (k + 1)

/-- Modelled from the spec: the §4.1 precondition on pivot values, checked
step by step from loop index `k`: each pivot `p` at step `k` must satisfy
`k <= p < permutation_size`. -/
def validFrom (pivots : List Int) (k n : Nat) : Bool :=
  match pivots with
  | [] => true
  | p :: rest => ((k : Int) ≤ p && p < (n : Int)) && validFrom rest (k + 1) n

/-- Modelled from the spec: `expand(pivots, permutation_size)` on a single
batch row (§4.1), with the fail-fast validation the spec recommends
(§4.1 preconditions, §7, §9): an out-of-range pivot raises `InvalidPivot`
and no partial result is returned; otherwise the sequential-swap algorithm
is applied to the identity permutation. -/
def expand (pivots : List Int) (permutation_size : Nat) :
    Except ExpandError (List Int) :=
  if validFrom pivots 0 permutation_size then
    Except.ok (applyPivots (idPerm permutation_size) pivots 0)
  else
    Except.error ExpandError.invalidPivot

/-- Modelled from the spec: the batched transformation on a single flat
input buffer of size `batch_size * pivot_size` (§5, §6): each of the
`batch_size` rows is the next `pivot_size` entries of the buffer, each row
is expanded independently, and the flat output buffer is the concatenation
of the per-row results (no partial result on failure, §7). -/
def expandBatchFlat (batch_size pivot_size n : Nat) (buf : List Int) :
    Except ExpandError (List Int) :=
  match batch_size with
  | 0 => Except.ok []
  | b + 1 => do
      let row ← expand (buf.take pivot_size) n
      let rest ← expandBatchFlat b pivot_size n (buf.drop pivot_size)
      Except.ok (row ++ rest)

/-- Element types of the arrays the glue layer inspects.  Only int32 is
accepted; the other constructors stand for every other dtype. -/
inductive DType where
  | int32 : DType
  | int64 : DType
  | float32 : DType
deriving DecidableEq, Repr

/-- The triple packed by `_cuda_linalg.cuda_lu_pivots_to_permutation_descriptor`
into the opaque backend-config blob. -/
structure Descriptor where
  batch_size : Nat
  pivot_size : Nat
  permutation_size : Nat
deriving DecidableEq, Repr

/-- Abstraction of the custom-call node both Python functions emit: target
name, opaque descriptor, operand/result layouts, operand/result dimensions
and the result element type. -/
structure CustomCall where
  target : String
  descriptor : Descriptor
  operandLayout : List Nat
  resultLayout : List Nat
  operandDims : List Nat
  resultDims : List Nat
  resultDtype : DType
deriving DecidableEq, Repr

/-- Failures of the glue functions themselves: the Python `assert` on the
element type, and the `IndexError` that `dims[-1]` raises on a rank-0
shape. -/
inductive GlueError where
  | assertionError : GlueError
  | indexError : GlueError
deriving DecidableEq, Repr

/-- `_prod = lambda xs: functools.reduce(operator.mul, xs, 1)`:
left fold of multiplication with initial value 1. -/
def _prod (xs : List Nat) : Nat :=
  xs.foldl (· * ·) 1

/-- `lu_pivots_to_permutation(c, pivots, *, permutation_size)` from the
source: asserts the element type is int32, computes
`batch_size = _prod(dims[:-1])`, `pivot_size = dims[-1]`, builds the
descriptor, the descending layout `tuple(range(len(dims)-1, -1, -1))`,
result dims `dims` with the last entry replaced by `permutation_size`,
and emits the custom call.  `dims[-1]` on a rank-0 shape raises
`IndexError` in Python, modelled as `GlueError.indexError`. -/
def lu_pivots_to_permutation (dtype : DType) (dims : List Nat)
    (permutation_size : Nat) : Except GlueError CustomCall :=
  if dtype = DType.int32 then
    if dims.isEmpty then Except.error GlueError.indexError
    else
      let batch_size := _prod dims.dropLast
      let pivot_size := dims.getLastD 0
      let opaque_desc : Descriptor :=
        ⟨batch_size, pivot_size, permutation_size⟩
      let pivots_layout := (List.range dims.length).reverse
      let permutations_layout := pivots_layout
      let permutations_dims := dims.dropLast ++ [permutation_size]
      Except.ok
        { target := "cuda_lu_pivots_to_permutation"
          descriptor := opaque_desc
          operandLayout := pivots_layout
          resultLayout := permutations_layout
          operandDims := dims
          resultDims := permutations_dims
          resultDtype := DType.int32 }
  else Except.error GlueError.assertionError

/-- `lu_pivots_to_permutation_mhlo(pivots, *, permutation_size)` from the
source: asserts the element type is the signless 32-bit integer type,
computes `batch_size = _prod(dims[:-1])`, `pivot_size = dims[-1]`, builds
the same descriptor, the descending layout `np.arange(len(dims)-1, -1, -1)`,
the result tensor type with the last dimension replaced by
`permutation_size`, and emits the MHLO `CustomCallOp`. -/
def lu_pivots_to_permutation_mhlo (dtype : DType) (dims : List Nat)
    (permutation_size : Nat) : Except GlueError CustomCall :=
  if dtype = DType.int32 then
    if dims.isEmpty then Except.error GlueError.indexError
    else
      let batch_size := _prod dims.dropLast
      let pivot_size := dims.getLastD 0
      let opaque_desc : Descriptor :=
        ⟨batch_size, pivot_size, permutation_size⟩
      let pivots_layout := (List.range dims.length).reverse
      let permutations_layout := pivots_layout
      let permutations_dims := dims.dropLast ++ [permutation_size]
      Except.ok
        { target := "cuda_lu_pivots_to_permutation"
          descriptor := opaque_desc
          operandLayout := pivots_layout
          resultLayout := permutations_layout
          operandDims := dims
          resultDims := permutations_dims
          resultDtype := DType.int32 }
  else Except.error GlueError.assertionError

/-! ### Helper lemmas about the buffer operations -/

lemma length_swapList (l : List Int) (i j : Nat) :
    (swapList l i j).length = l.length := by
  simp [swapList]

lemma set_getD_self (l : List Int) (k : Nat) :
    l.set k (l.getD k 0) = l := by
  induction l generalizing k with
  | nil => rfl
  | cons a t ih =>
    cases k with
    | zero => rfl
    | succ k => simpa using ih k

lemma getD_set_ne (l : List Int) (i j : Nat) (a d : Int) (h : i ≠ j) :
    (l.set i a).getD j d = l.getD j d := by
  induction l generalizing i j with
  | nil => rfl
  | cons b t ih =>
    cases i with
    | zero =>
      cases j with
      | zero => exact absurd rfl h
      | succ j => rfl
    | succ i =>
      cases j with
      | zero => rfl
      | succ j => simpa using ih i j (by omega)

lemma swapList_self (l : List Int) (k : Nat) : swapList l k k = l := by
  show (l.set k (l.getD k 0)).set k (l.getD k 0) = l
  rw [List.set_set]
  exact set_getD_self l k

lemma perm_getD_cons_set (t : List Int) (j : Nat) (hj : j < t.length) (a : Int) :
    List.Perm (t.getD j 0 :: t.set j a) (a :: t) := by
  induction t generalizing j with
  | nil => exact absurd hj (by simp)
  | cons b t ih =>
    cases j with
    | zero => exact List.Perm.swap a b t
    | succ j =>
      have hj' : j < t.length := by simpa using hj
      have h1 : List.Perm (t.getD j 0 :: b :: t.set j a)
          (b :: t.getD j 0 :: t.set j a) := List.Perm.swap b _ _
      have h2 : List.Perm (b :: t.getD j 0 :: t.set j a) (b :: a :: t) :=
        List.Perm.cons b (ih j hj')
      have h3 : List.Perm (b :: a :: t) (a :: b :: t) := List.Perm.swap a b t
      exact (h1.trans h2).trans h3

lemma swapList_cons_zero_succ (b : Int) (t : List Int) (j : Nat) :
    swapList (b :: t) 0 (j + 1) = t.getD j 0 :: t.set j b := by
  simp [swapList]

lemma swapList_cons_succ_zero (b : Int) (t : List Int) (i : Nat) :
    swapList (b :: t) (i + 1) 0 = t.getD i 0 :: t.set i b := by
  simp [swapList]

lemma swapList_cons_succ_succ (b : Int) (t : List Int) (i j : Nat) :
    swapList (b :: t) (i + 1) (j + 1) = b :: swapList t i j := by
  simp [swapList]

lemma swapList_perm (l : List Int) (i j : Nat)
    (hi : i < l.length) (hj : j < l.length) :
    List.Perm (swapList l i j) l := by
  induction l generalizing i j with
  | nil => simp [swapList]
  | cons b t ih =>
    cases i with
    | zero =>
      cases j with
      | zero => rw [swapList_self]
      | succ j =>
        rw [swapList_cons_zero_succ]
        exact perm_getD_cons_set t j (by simpa using hj) b
    | succ i =>
      cases j with
      | zero =>
        rw [swapList_cons_succ_zero]
        exact perm_getD_cons_set t i (by simpa using hi) b
      | succ j =>
        rw [swapList_cons_succ_succ]
        exact List.Perm.cons b (ih i j (by simpa using hi) (by simpa using hj))

lemma validFrom_cons {p : Int} {rest : List Int} {k n : Nat}
    (h : validFrom (p :: rest) k n = true) :
    (k : Int) ≤ p ∧ p < (n : Int) ∧ validFrom rest (k + 1) n = true := by
  simp only [validFrom, Bool.and_eq_true, decide_eq_true_eq] at h
  exact ⟨h.1.1, h.1.2, h.2⟩

lemma length_idPerm (n : Nat) : (idPerm n).length = n := by
  simp [idPerm]

lemma applyPivots_perm (pivots : List Int) (perm : List Int) (k n : Nat)
    (hlen : perm.length = n) (hv : validFrom pivots k n = true) :
    List.Perm (applyPivots perm pivots k) perm := by
  induction pivots generalizing perm k with
  | nil => exact List.Perm.refl perm
  | cons p rest ih =>
    obtain ⟨h1, h2, h3⟩ := validFrom_cons hv
    have hk : k < perm.length := by omega
    have hp : p.toNat < perm.length := by omega
    have hlen' : (swapList perm k p.toNat).length = n := by
      rw [length_swapList, hlen]
    exact (ih (swapList perm k p.toNat) (k + 1) hlen' h3).trans
      (swapList_perm perm k p.toNat hk hp)

/-- C1: for every `permutation_size >= pivot_size >= 0` and every valid
pivot sequence (each `p_k` in `[k, permutation_size)`), `expand` succeeds
and returns a sequence that is a bijection on `{0,...,permutation_size-1}`:
the output is a rearrangement (`List.Perm`) of `[0, permutation_size)`,
so sorting it yields exactly `[0, permutation_size)`. -/
theorem expand_is_bijection (pivots : List Int) (n : Nat)
    (hsize : pivots.length ≤ n)
    (hv : validFrom pivots 0 n = true) :
    ∃ out, expand pivots n = Except.ok out ∧ List.Perm out (idPerm n) := by
  refine ⟨applyPivots (idPerm n) pivots 0, ?_, ?_⟩
  · simp [expand, hv]
  · exact applyPivots_perm pivots (idPerm n) 0 n (length_idPerm n) hv

/-- Witness for C1 at `pivots = [1, 2, 2]`, `permutation_size = 3`. -/
theorem expand_is_bijection_witness :
    ([1, 2, 2] : List Int).length ≤ 3 ∧ validFrom [1, 2, 2] 0 3 = true ∧
    ∃ out, expand [1, 2, 2] 3 = Except.ok out ∧ List.Perm out (idPerm 3) :=
  ⟨by decide, by decide, expand_is_bijection [1, 2, 2] 3 (by decide) (by decide)⟩

/-- C2: `expand` computes each output row by the sequential-swap algorithm:
start from the identity, then swap `perm[k]` and `perm[p_k]` for `k` in
order.  For `pivot_size = 3`, `permutation_size = 3`, `pivots = [1, 2, 2]`
the trace is `[0,1,2] → [1,0,2] → [1,2,0] → [1,2,0]` and the output is
`[1, 2, 0]`. -/
theorem expand_sequential_swap_trace :
    swapList [0, 1, 2] 0 1 = [1, 0, 2] ∧
    swapList [1, 0, 2] 1 2 = [1, 2, 0] ∧
    swapList [1, 2, 0] 2 2 = [1, 2, 0] ∧
    applyPivots (idPerm 3) [1, 2, 2] 0 = [1, 2, 0] ∧
    expand [1, 2, 2] 3 = Except.ok [1, 2, 0] :=
  ⟨by decide, by decide, by decide, by decide, rfl⟩

lemma applyPivots_cons (perm : List Int) (p : Int) (rest : List Int) (k : Nat) :
    applyPivots perm (p :: rest) k =
      applyPivots (swapList perm k p.toNat) rest (k + 1) := rfl

lemma validFrom_eq_true_iff (pivots : List Int) (k n : Nat) :
    validFrom pivots k n = true ↔
      ∀ i, i < pivots.length →
        (k : Int) + (i : Int) ≤ pivots.getD i 0 ∧ pivots.getD i 0 < (n : Int) := by
  induction pivots generalizing k with
  | nil => simp [validFrom]
  | cons p rest ih =>
    simp only [validFrom, Bool.and_eq_true, decide_eq_true_eq]
    constructor
    · rintro ⟨⟨h1, h2⟩, h3⟩ i hi
      cases i with
      | zero => simpa using ⟨h1, h2⟩
      | succ i =>
        have h4 := (ih (k + 1)).mp h3 i (by simpa using hi)
        rw [List.getD_cons_succ]
        refine ⟨?_, h4.2⟩
        have h5 := h4.1
        push_cast at h5 ⊢
        omega
    · intro h
      have h0 := h 0 (by simp)
      simp only [List.getD_cons_zero] at h0
      refine ⟨⟨by simpa using h0.1, h0.2⟩, (ih (k + 1)).mpr ?_⟩
      intro i hi
      have hs := h (i + 1) (by simpa using hi)
      rw [List.getD_cons_succ] at hs
      refine ⟨?_, hs.2⟩
      have h5 := hs.1
      push_cast at h5 ⊢
      omega

/-- C5: if some pivot value `p_k` satisfies `p_k < k` or
`p_k >= permutation_size`, `expand` fails with `InvalidPivot`, returning
no (partial) result. -/
theorem expand_out_of_range_pivot (pivots : List Int) (n k : Nat)
    (hk : k < pivots.length)
    (hbad : pivots.getD k 0 < (k : Int) ∨ (n : Int) ≤ pivots.getD k 0) :
    expand pivots n = Except.error ExpandError.invalidPivot := by
  have hne : ¬ validFrom pivots 0 n = true := by
    intro hval
    have hgood := (validFrom_eq_true_iff pivots 0 n).mp hval k hk
    rcases hbad with h | h
    · have h5 := hgood.1
      push_cast at h5
      omega
    · have h5 := hgood.2
      omega
  simp only [expand]
  rw [if_neg hne]

/-- Witness for C5 at `pivots = [3]`, `permutation_size = 3`, `k = 0`. -/
theorem expand_out_of_range_pivot_witness :
    (0 : Nat) < ([3] : List Int).length ∧
    (([3] : List Int).getD 0 0 < ((0 : Nat) : Int) ∨
      ((3 : Nat) : Int) ≤ ([3] : List Int).getD 0 0) ∧
    expand [3] 3 = Except.error ExpandError.invalidPivot :=
  ⟨by decide, by decide,
    expand_out_of_range_pivot [3] 3 0 (by decide) (by decide)⟩

lemma applyPivots_identity (m k : Nat) (perm : List Int) :
    applyPivots perm ((List.range' k m).map Int.ofNat) k = perm := by
  induction m generalizing k perm with
  | zero => rfl
  | succ m ih =>
    rw [List.range'_succ, List.map_cons, applyPivots_cons]
    rw [show (Int.ofNat k).toNat = k from rfl, swapList_self]
    exact ih (k + 1) perm

lemma validFrom_range' (m k n : Nat) (h : k + m ≤ n) :
    validFrom ((List.range' k m).map Int.ofNat) k n = true := by
  induction m generalizing k with
  | zero => rfl
  | succ m ih =>
    rw [List.range'_succ, List.map_cons]
    simp only [validFrom, Bool.and_eq_true, decide_eq_true_eq, Int.ofNat_eq_natCast]
    refine ⟨⟨by omega, by omega⟩, ih (k + 1) (by omega)⟩

lemma idPerm_eq_range' (m : Nat) :
    idPerm m = (List.range' 0 m).map Int.ofNat := by
  rw [idPerm, List.range_eq_range']

/-- C6: if `p_k = k` for every `k` in `[0, pivot_size)`, then for any
`permutation_size >= pivot_size` the output row is the identity permutation
`[0, 1, ..., permutation_size-1]`. -/
theorem expand_identity_pivots (pivots : List Int) (n : Nat)
    (hsize : pivots.length ≤ n)
    (hid : ∀ i, i < pivots.length → pivots.getD i 0 = (i : Int)) :
    expand pivots n = Except.ok (idPerm n) := by
  have hpiv : pivots = (List.range' 0 pivots.length).map Int.ofNat := by
    apply List.ext_getElem (by simp)
    intro i h1 h2
    have hg := hid i h1
    rw [List.getD_eq_getElem?_getD, List.getElem?_eq_getElem h1] at hg
    simp only [Option.getD_some] at hg
    simp [hg, List.getElem_range']
  have hval : validFrom pivots 0 n = true := by
    rw [hpiv]
    exact validFrom_range' pivots.length 0 n (by omega)
  have happ : applyPivots (idPerm n) pivots 0 = idPerm n := by
    rw [hpiv]
    exact applyPivots_identity pivots.length 0 (idPerm n)
  simp only [expand]
  rw [if_pos hval, happ]

/-- Witness for C6 at `pivots = [0, 1]`, `permutation_size = 4`. -/
theorem expand_identity_pivots_witness :
    ([0, 1] : List Int).length ≤ 4 ∧
    (∀ i, i < ([0, 1] : List Int).length →
      ([0, 1] : List Int).getD i 0 = (i : Int)) ∧
    expand [0, 1] 4 = Except.ok (idPerm 4) :=
  ⟨by decide, by decide, expand_identity_pivots [0, 1] 4 (by decide) (by decide)⟩

lemma applyPivots_getD_high (pivots : List Int) (perm : List Int) (k b m : Nat)
    (hk : k + pivots.length ≤ b) (hp : ∀ p ∈ pivots, p.toNat < b)
    (hm : b ≤ m) :
    (applyPivots perm pivots k).getD m 0 = perm.getD m 0 := by
  induction pivots generalizing k perm with
  | nil => rfl
  | cons p rest ih =>
    rw [applyPivots_cons]
    rw [ih (swapList perm k p.toNat) (k + 1)
      (by simp only [List.length_cons] at hk; omega)
      (fun q hq => hp q (List.mem_cons_of_mem p hq))]
    have h1 : k ≠ m := by
      simp only [List.length_cons] at hk
      omega
    have h2 : p.toNat ≠ m := by
      have := hp p (List.mem_cons_self p rest)
      omega
    simp only [swapList]
    rw [getD_set_ne _ _ _ _ _ h2, getD_set_ne _ _ _ _ _ h1]

lemma idPerm_getD (n m : Nat) (h : m < n) :
    (idPerm n).getD m 0 = (m : Int) := by
  have hlt : m < (idPerm n).length := by rw [length_idPerm]; exact h
  rw [List.getD_eq_getElem?_getD, List.getElem?_eq_getElem hlt]
  simp [idPerm]

lemma validFrom_nonneg (pivots : List Int) (k n : Nat)
    (hv : validFrom pivots k n = true) : ∀ p ∈ pivots, 0 ≤ p := by
  induction pivots generalizing k with
  | nil => simp
  | cons p rest ih =>
    obtain ⟨h1, h2, h3⟩ := validFrom_cons hv
    intro q hq
    rcases List.mem_cons.mp hq with h | h
    · subst h; omega
    · exact ih (k + 1) h3 q h

/-- C7: when `permutation_size > pivot_size` and every pivot value is below
`pivot_size`, the output entries at indices in
`[pivot_size, permutation_size)` keep their identity value `perm[i] = i`
(no swap ever touches the identity tail). -/
theorem expand_identity_tail (pivots : List Int) (n : Nat)
    (hv : validFrom pivots 0 n = true)
    (hsmall : ∀ p ∈ pivots, p < (pivots.length : Int)) :
    ∃ out, expand pivots n = Except.ok out ∧
      ∀ m, pivots.length ≤ m → m < n → out.getD m 0 = (m : Int) := by
  refine ⟨applyPivots (idPerm n) pivots 0, by simp [expand, hv], ?_⟩
  intro m h1 h2
  have hnn := validFrom_nonneg pivots 0 n hv
  have hp : ∀ p ∈ pivots, p.toNat < pivots.length := by
    intro p hp0
    have ha := hsmall p hp0
    have hb := hnn p hp0
    omega
  rw [applyPivots_getD_high pivots (idPerm n) 0 pivots.length m (by omega) hp h1]
  exact idPerm_getD n m h2

lemma expandBatchFlat_succ_ok (b ps n : Nat) (buf : List Int)
    (row out : List Int)
    (h1 : expand (buf.take ps) n = Except.ok row)
    (h2 : expandBatchFlat b ps n (buf.drop ps) = Except.ok out) :
    expandBatchFlat (b + 1) ps n buf = Except.ok (row ++ out) := by
  show (do
    let row ← expand (buf.take ps) n
    let rest ← expandBatchFlat b ps n (buf.drop ps)
    Except.ok (row ++ rest) : Except ExpandError (List Int)) =
      Except.ok (row ++ out)
  rw [h1, h2]
  rfl

/-- C8: running the batched transformation on a flat buffer that is the
concatenation of N valid pivot rows of width `pivot_size` produces exactly
the concatenation of the rows that `expand` produces on each row alone:
batch elements are computed independently. -/
theorem expandBatchFlat_rowwise (rows : List (List Int)) (ps n : Nat)
    (hlen : ∀ r ∈ rows, r.length = ps)
    (hv : ∀ r ∈ rows, validFrom r 0 n = true) :
    expandBatchFlat rows.length ps n rows.flatten =
      Except.ok ((rows.map (fun r => applyPivots (idPerm n) r 0)).flatten) ∧
    ∀ r ∈ rows, expand r n = Except.ok (applyPivots (idPerm n) r 0) := by
  constructor
  · induction rows with
    | nil => rfl
    | cons r rest ih =>
      have hr : r.length = ps := hlen r (List.mem_cons_self _ _)
      have hflat : (r :: rest).flatten = r ++ rest.flatten := rfl
      have htake : ((r :: rest).flatten).take ps = r := by
        rw [hflat]; exact List.take_left' hr
      have hdrop : ((r :: rest).flatten).drop ps = rest.flatten := by
        rw [hflat]; exact List.drop_left' hr
      have hhead : expand (((r :: rest).flatten).take ps) n =
          Except.ok (applyPivots (idPerm n) r 0) := by
        rw [htake]
        simp [expand, hv r (List.mem_cons_self _ _)]
      have htail := ih (fun q hq => hlen q (List.mem_cons_of_mem r hq))
        (fun q hq => hv q (List.mem_cons_of_mem r hq))
      rw [List.length_cons]
      rw [expandBatchFlat_succ_ok rest.length ps n ((r :: rest).flatten)
        (applyPivots (idPerm n) r 0)
        ((rest.map (fun q => applyPivots (idPerm n) q 0)).flatten)
        hhead (by rw [hdrop]; exact htail)]
      rfl
  · intro r hr
    simp [expand, hv r hr]

/-- Witness for C8 at two rows `[1, 1]` and `[0, 1]`, `permutation_size = 2`. -/
theorem expandBatchFlat_rowwise_witness :
    (∀ r ∈ [[(1 : Int), 1], [0, 1]], r.length = 2) ∧
    (∀ r ∈ [[(1 : Int), 1], [0, 1]], validFrom r 0 2 = true) ∧
    (expandBatchFlat ([[(1 : Int), 1], [0, 1]]).length 2 2
        ([[(1 : Int), 1], [0, 1]]).flatten =
      Except.ok (([[(1 : Int), 1], [0, 1]]).map
        (fun r => applyPivots (idPerm 2) r 0)).flatten ∧
    ∀ r ∈ [[(1 : Int), 1], [0, 1]],
      expand r 2 = Except.ok (applyPivots (idPerm 2) r 0)) :=
  ⟨by decide, by decide,
    expandBatchFlat_rowwise [[1, 1], [0, 1]] 2 2 (by decide) (by decide)⟩

/-- Witness for C7 at `pivots = [1, 1]`, `permutation_size = 4`. -/
theorem expand_identity_tail_witness :
    validFrom [1, 1] 0 4 = true ∧
    (∀ p ∈ ([1, 1] : List Int), p < (([1, 1] : List Int).length : Int)) ∧
    ∃ out, expand [1, 1] 4 = Except.ok out ∧
      ∀ m, ([1, 1] : List Int).length ≤ m → m < 4 → out.getD m 0 = (m : Int) :=
  ⟨by decide, by decide, expand_identity_tail [1, 1] 4 (by decide) (by decide)⟩

/-! ### The glue layer: shapes, layouts and the emitted call node -/

lemma lu_pivots_ok (dims : List Nat) (n : Nat) (h : dims ≠ []) :
    lu_pivots_to_permutation DType.int32 dims n = Except.ok
      { target := "cuda_lu_pivots_to_permutation"
        descriptor := ⟨_prod dims.dropLast, dims.getLastD 0, n⟩
        operandLayout := (List.range dims.length).reverse
        resultLayout := (List.range dims.length).reverse
        operandDims := dims
        resultDims := dims.dropLast ++ [n]
        resultDtype := DType.int32 } := by
  simp [lu_pivots_to_permutation, h]

lemma lu_pivots_mhlo_ok (dims : List Nat) (n : Nat) (h : dims ≠ []) :
    lu_pivots_to_permutation_mhlo DType.int32 dims n = Except.ok
      { target := "cuda_lu_pivots_to_permutation"
        descriptor := ⟨_prod dims.dropLast, dims.getLastD 0, n⟩
        operandLayout := (List.range dims.length).reverse
        resultLayout := (List.range dims.length).reverse
        operandDims := dims
        resultDims := dims.dropLast ++ [n]
        resultDtype := DType.int32 } := by
  simp [lu_pivots_to_permutation_mhlo, h]

/-- C3: for every (rank >= 1) input shape and every `permutation_size`,
both glue functions emit a result array with the same leading (batch)
dimensions as the pivots input, last dimension `permutation_size`, and
int32 element type. -/
theorem result_shape_and_dtype (dims : List Nat) (n : Nat) (h : dims ≠ []) :
    ∃ c c', lu_pivots_to_permutation DType.int32 dims n = Except.ok c ∧
      lu_pivots_to_permutation_mhlo DType.int32 dims n = Except.ok c' ∧
      c.resultDims = dims.dropLast ++ [n] ∧ c.resultDtype = DType.int32 ∧
      c'.resultDims = dims.dropLast ++ [n] ∧ c'.resultDtype = DType.int32 ∧
      c.resultDims.dropLast = dims.dropLast ∧ c.resultDims.getLastD 0 = n := by
  refine ⟨_, _, lu_pivots_ok dims n h, lu_pivots_mhlo_ok dims n h,
    rfl, rfl, rfl, rfl, ?_, ?_⟩
  · exact List.dropLast_concat
  · exact List.getLastD_concat 0 n dims.dropLast

/-- Witness for C3 at `dims = [2, 3]`, `permutation_size = 5`. -/
theorem result_shape_and_dtype_witness :
    ([2, 3] : List Nat) ≠ [] ∧
    ∃ c c', lu_pivots_to_permutation DType.int32 [2, 3] 5 = Except.ok c ∧
      lu_pivots_to_permutation_mhlo DType.int32 [2, 3] 5 = Except.ok c' ∧
      c.resultDims = ([2, 3] : List Nat).dropLast ++ [5] ∧
      c.resultDtype = DType.int32 ∧
      c'.resultDims = ([2, 3] : List Nat).dropLast ++ [5] ∧
      c'.resultDtype = DType.int32 ∧
      c.resultDims.dropLast = ([2, 3] : List Nat).dropLast ∧
      c.resultDims.getLastD 0 = 5 :=
  ⟨by decide, result_shape_and_dtype [2, 3] 5 (by decide)⟩

/-- C4: if the pivots element type is not int32, both glue functions fail
with the assertion before emitting any call; if it is int32, the assertion
never fires. -/
theorem dtype_assertion_guard (dtype : DType) (dims : List Nat) (n : Nat) :
    (dtype ≠ DType.int32 →
      lu_pivots_to_permutation dtype dims n =
        Except.error GlueError.assertionError ∧
      lu_pivots_to_permutation_mhlo dtype dims n =
        Except.error GlueError.assertionError) ∧
    lu_pivots_to_permutation DType.int32 dims n ≠
      Except.error GlueError.assertionError ∧
    lu_pivots_to_permutation_mhlo DType.int32 dims n ≠
      Except.error GlueError.assertionError := by
  refine ⟨fun hne => ⟨?_, ?_⟩, ?_, ?_⟩
  · simp [lu_pivots_to_permutation, hne]
  · simp [lu_pivots_to_permutation_mhlo, hne]
  · by_cases hd : dims.isEmpty <;> simp [lu_pivots_to_permutation, hd]
  · by_cases hd : dims.isEmpty <;> simp [lu_pivots_to_permutation_mhlo, hd]

/-- Witness for C4 at `dtype = float32` and `dtype = int32`,
`dims = [2, 3]`, `permutation_size = 5`. -/
theorem dtype_assertion_guard_witness :
    (lu_pivots_to_permutation DType.float32 [2, 3] 5 =
        Except.error GlueError.assertionError ∧
      lu_pivots_to_permutation_mhlo DType.float32 [2, 3] 5 =
        Except.error GlueError.assertionError) ∧
    lu_pivots_to_permutation DType.int32 [2, 3] 5 ≠
      Except.error GlueError.assertionError ∧
    lu_pivots_to_permutation_mhlo DType.int32 [2, 3] 5 ≠
      Except.error GlueError.assertionError :=
  ⟨(dtype_assertion_guard DType.float32 [2, 3] 5).1 (by decide),
    (dtype_assertion_guard DType.float32 [2, 3] 5).2.1,
    (dtype_assertion_guard DType.float32 [2, 3] 5).2.2⟩

lemma _prod_eq_prod (xs : List Nat) : _prod xs = xs.prod := by
  rw [_prod, List.prod_eq_foldl]

/-- C9: both functions compute `batch_size` as the product of all leading
dimensions, with the empty product equal to 1: a rank-1 pivots array gives
`batch_size = 1`, and a zero-sized leading dimension gives
`batch_size = 0`. -/
theorem batch_size_is_leading_product (dims : List Nat) (n : Nat)
    (h : dims ≠ []) :
    ∃ c c', lu_pivots_to_permutation DType.int32 dims n = Except.ok c ∧
      lu_pivots_to_permutation_mhlo DType.int32 dims n = Except.ok c' ∧
      c.descriptor.batch_size = _prod dims.dropLast ∧
      c'.descriptor.batch_size = _prod dims.dropLast ∧
      _prod [] = 1 ∧
      (dims.length = 1 → c.descriptor.batch_size = 1) ∧
      (0 ∈ dims.dropLast → c.descriptor.batch_size = 0) := by
  refine ⟨_, _, lu_pivots_ok dims n h, lu_pivots_mhlo_ok dims n h,
    rfl, rfl, rfl, ?_, ?_⟩
  · intro hlen
    obtain ⟨a, ha⟩ := List.length_eq_one.mp hlen
    subst ha
    rfl
  · intro hmem
    show _prod dims.dropLast = 0
    rw [_prod_eq_prod]
    exact List.prod_eq_zero hmem

/-- Witness for C9 at `dims = [0, 4]`, `permutation_size = 5`. -/
theorem batch_size_is_leading_product_witness :
    ([0, 4] : List Nat) ≠ [] ∧
    ∃ c c', lu_pivots_to_permutation DType.int32 [0, 4] 5 = Except.ok c ∧
      lu_pivots_to_permutation_mhlo DType.int32 [0, 4] 5 = Except.ok c' ∧
      c.descriptor.batch_size = _prod ([0, 4] : List Nat).dropLast ∧
      c'.descriptor.batch_size = _prod ([0, 4] : List Nat).dropLast ∧
      _prod [] = 1 ∧
      (([0, 4] : List Nat).length = 1 → c.descriptor.batch_size = 1) ∧
      (0 ∈ ([0, 4] : List Nat).dropLast → c.descriptor.batch_size = 0) :=
  ⟨by decide, batch_size_is_leading_product [0, 4] 5 (by decide)⟩

/-- C10: given the same pivots dimensions and the same `permutation_size`,
the two glue functions emit equivalent call nodes: the same target name
`cuda_lu_pivots_to_permutation`, the same opaque descriptor built from
`(batch_size, pivot_size, permutation_size)`, the same row-major
(descending) operand and result layouts, and the same result dimensions
(the input dims with the last entry replaced by `permutation_size`). -/
theorem glue_functions_equivalent (dtype : DType) (dims : List Nat)
    (n : Nat) :
    lu_pivots_to_permutation dtype dims n =
      lu_pivots_to_permutation_mhlo dtype dims n ∧
    ∀ c c_mhlo, lu_pivots_to_permutation dtype dims n = Except.ok c →
      lu_pivots_to_permutation_mhlo dtype dims n = Except.ok c_mhlo →
      c.target = "cuda_lu_pivots_to_permutation" ∧
      c_mhlo.target = c.target ∧
      c.descriptor = ⟨_prod dims.dropLast, dims.getLastD 0, n⟩ ∧
      c_mhlo.descriptor = c.descriptor ∧
      c.operandLayout = (List.range dims.length).reverse ∧
      c_mhlo.operandLayout = c.operandLayout ∧
      c.resultLayout = c.operandLayout ∧
      c_mhlo.resultLayout = c.resultLayout ∧
      c.resultDims = dims.dropLast ++ [n] ∧
      c_mhlo.resultDims = c.resultDims := by
  refine ⟨rfl, ?_⟩
  intro c c_mhlo h1 h2
  by_cases hdt : dtype = DType.int32
  · subst hdt
    by_cases hd : dims = []
    · subst hd
      simp [lu_pivots_to_permutation] at h1
    · rw [lu_pivots_ok dims n hd] at h1
      rw [lu_pivots_mhlo_ok dims n hd] at h2
      cases h1
      cases h2
      exact ⟨rfl, rfl, rfl, rfl, rfl, rfl, rfl, rfl, rfl, rfl⟩
  · simp [lu_pivots_to_permutation, hdt] at h1

/-- Witness for C10 at `dims = [2, 3]`, `permutation_size = 5`. -/
theorem glue_functions_equivalent_witness :
    (lu_pivots_to_permutation DType.int32 [2, 3] 5 =
      lu_pivots_to_permutation_mhlo DType.int32 [2, 3] 5) ∧
    (let c0 : CustomCall :=
      { target := "cuda_lu_pivots_to_permutation"
        descriptor := ⟨2, 3, 5⟩
        operandLayout := [1, 0]
        resultLayout := [1, 0]
        operandDims := [2, 3]
        resultDims := [2, 5]
        resultDtype := DType.int32 }
     c0.target = "cuda_lu_pivots_to_permutation" ∧
      c0.target = c0.target ∧
      c0.descriptor = ⟨_prod ([2, 3] : List Nat).dropLast,
        ([2, 3] : List Nat).getLastD 0, 5⟩ ∧
      c0.descriptor = c0.descriptor ∧
      c0.operandLayout = (List.range ([2, 3] : List Nat).length).reverse ∧
      c0.operandLayout = c0.operandLayout ∧
      c0.resultLayout = c0.operandLayout ∧
      c0.resultLayout = c0.resultLayout ∧
      c0.resultDims = ([2, 3] : List Nat).dropLast ++ [5] ∧
      c0.resultDims = c0.resultDims) :=
  ⟨(glue_functions_equivalent DType.int32 [2, 3] 5).1,
    (glue_functions_equivalent DType.int32 [2, 3] 5).2
      { target := "cuda_lu_pivots_to_permutation"
        descriptor := ⟨2, 3, 5⟩
        operandLayout := [1, 0]
        resultLayout := [1, 0]
        operandDims := [2, 3]
        resultDims := [2, 5]
        resultDtype := DType.int32 }
      { target := "cuda_lu_pivots_to_permutation"
        descriptor := ⟨2, 3, 5⟩
        operandLayout := [1, 0]
        resultLayout := [1, 0]
        operandDims := [2, 3]
        resultDims := [2, 5]
        resultDtype := DType.int32 }
      rfl rfl⟩
